import Mathlib

namespace LIAR


/-! Shallow embedding of the LIAR document-indexing pipeline
(`src/processors.py`, `src/services.py`, `src/managers.py`).
Python strings are modelled as lists of characters. -/

abbrev Str := List Char

/-- Whitespace characters recognised by Python's `str.split()` / `str.strip()`
(the ASCII ones; the model is uniform in this predicate). -/
def pySpace (c : Char) : Bool :=
  c = ' ' || c = '\t' || c = '\n' || c = '\r' || c = '\x0b' || c = '\x0c'

/-- Accumulator loop for `str.split()` with no separator: runs of whitespace
delimit tokens, empty tokens are dropped.  `acc` is the token being built. -/
def pySplitAux : Str → Str → List Str
  | [], acc => if acc = [] then [] else [acc]
  | c :: cs, acc =>
    if pySpace c then
      if acc = [] then pySplitAux cs [] else acc :: pySplitAux cs []
    else
      pySplitAux cs (acc ++ [c])

/-- Python `text.split()` (no argument): whitespace-delimited tokens. -/
def pySplit (s : Str) : List Str := pySplitAux s []

/-- Python `" ".join(ws)`. -/
def joinSpace : List Str → Str
  | [] => []
  | [w] => w
  | w :: x :: ws => w ++ ' ' :: joinSpace (x :: ws)

/-- Python `s.strip()`: drop leading and trailing whitespace. -/
def pyStrip (s : Str) : Str :=
  ((s.dropWhile pySpace).reverse.dropWhile pySpace).reverse

/-- One iteration of the `for word in words` loop in
`DocumentProcessor._chunk_text` (processors.py lines 452-459).  The state is
`(chunks, current_chunk, current_length)`. -/
def chunkStep (chunkSize : Nat) : List Str × List Str × Nat → Str → List Str × List Str × Nat
  | (chunks, currentChunk, currentLength), word =>
    if currentLength + word.length + 1 > chunkSize ∧ currentChunk ≠ [] then
      (chunks ++ [joinSpace currentChunk], [word], word.length)
    else
      (chunks, currentChunk ++ [word], currentLength + word.length + 1)

/-- `DocumentProcessor._chunk_text` (processors.py lines 443-464): split the
text into words, greedily pack words into chunks, append the trailing chunk. -/
def chunk_text (chunkSize : Nat) (text : Str) : List Str :=
  let r := (pySplit text).foldl (chunkStep chunkSize) ([], [], 0)
  if r.2.1 ≠ [] then r.1 ++ [joinSpace r.2.1] else r.1

/-- Word-level image of `chunkStep`: identical control flow, but completed
chunks are kept as word lists instead of joined strings. -/
def chunkWordsStep (chunkSize : Nat) : List (List Str) × List Str × Nat → Str → List (List Str) × List Str × Nat
  | (groups, cur, len), word =>
    if len + word.length + 1 > chunkSize ∧ cur ≠ [] then
      (groups ++ [cur], [word], word.length)
    else
      (groups, cur ++ [word], len + word.length + 1)

/-- Word-level image of `chunk_text`: the grouping of the word sequence that
`_chunk_text` produces. -/
def chunkWords (chunkSize : Nat) (ws : List Str) : List (List Str) :=
  let r := ws.foldl (chunkWordsStep chunkSize) ([], [], 0)
  if r.2.1 ≠ [] then r.1 ++ [r.2.1] else r.1

/-- A word as produced by `split()`: nonempty and free of whitespace. -/
def cleanWord (w : Str) : Prop := w ≠ [] ∧ ∀ c ∈ w, pySpace c = false

/-- The invariant a finished chunk satisfies: it is a nonempty word group, and
its joined length fits the limit unless it is a single word. -/
def goodGroup (n : Nat) (g : List Str) : Prop :=
  g ≠ [] ∧ ((joinSpace g).length ≤ n ∨ ∃ w, g = [w])

/-- Invariant of the in-progress chunk: `current_length` dominates the joined
length, and the group obeys the limit unless it is a single word. -/
def goodCur (n : Nat) (cur : List Str) (len : Nat) : Prop :=
  (cur = [] ∧ len = 0) ∨
    (cur ≠ [] ∧ (joinSpace cur).length ≤ len ∧
      ((joinSpace cur).length ≤ n ∨ ∃ w, cur = [w]))

/-! Point Buffer (`BaseProcessor`, processors.py lines 25-110).  The Qdrant
client is an external collaborator; its `upsert` is modelled by an oracle
`ok : Nat → Bool` giving the outcome of the n-th upsert call of the run, and
`upserts` logs the batches handed to the store.  The `uuid4` point id is not
modelled: nothing observed by the claims depends on it. -/

/-- The payload built for one chunk (processors.py lines 419-427). -/
structure Payload where
  file_path : Str
  file_type : Str
  file_format : Str
  text : Str
  chunk_index : Nat
  total_chunks : Nat
  file_size : Nat
deriving DecidableEq

/-- A `PointStruct` as produced by `BaseProcessor._create_point`. -/
structure Point where
  vector : List Rat
  payload : Payload
deriving DecidableEq

/-- Buffer-side state of a `BaseProcessor`. -/
structure BufState where
  buffer : List Point
  processed_count : Nat
  upserts : List (List Point)
deriving DecidableEq

/-- `BaseProcessor._flush_batch` (processors.py lines 70-85): one `upsert` call
with the whole buffer; `processed_count` grows only on success; on failure the
exception is re-raised; the `finally` clause clears the buffer in both cases. -/
def flush_batch (ok : Nat → Bool) (s : BufState) : Except Unit Unit × BufState :=
  if ok s.upserts.length then
    (Except.ok (), ⟨[], s.processed_count + s.buffer.length, s.upserts ++ [s.buffer]⟩)
  else
    (Except.error (), ⟨[], s.processed_count, s.upserts ++ [s.buffer]⟩)

/-- `BaseProcessor._add_to_buffer` (processors.py lines 104-110): append, then
flush when the buffer has reached the batch size. -/
def add_to_buffer (ok : Nat → Bool) (batchSize : Nat) (p : Point) (s : BufState) :
    Except Unit Unit × BufState :=
  if batchSize ≤ (s.buffer ++ [p]).length then
    flush_batch ok ⟨s.buffer ++ [p], s.processed_count, s.upserts⟩
  else
    (Except.ok (), ⟨s.buffer ++ [p], s.processed_count, s.upserts⟩)

/-- `BaseProcessor.finalize` (processors.py lines 41-47): flush the remainder,
if any. -/
def finalize_buffer (ok : Nat → Bool) (s : BufState) : Except Unit Unit × BufState :=
  if s.buffer = [] then (Except.ok (), s) else flush_batch ok s

/-- `add` called once per point of `ps`, in order.  The flush outcome does not
affect the state transition (the `finally` clause clears the buffer either
way), so only the state is threaded. -/
def add_many (ok : Nat → Bool) (batchSize : Nat) (ps : List Point) (s : BufState) : BufState :=
  ps.foldl (fun st p => (add_to_buffer ok batchSize p st).2) s

/-- A fixed concrete point, the all-true and all-false store oracles, and small
concrete states, used by the closed witness instances below. -/
def samplePoint : Point := ⟨[1], ⟨['a'], ['d'], ['t'], ['x'], 0, 1, 3⟩⟩

def emptyBuf : BufState := ⟨[], 0, []⟩

def bufOne : BufState := ⟨[samplePoint], 0, []⟩

def okAll : Nat → Bool := fun _ => true

def okNone : Nat → Bool := fun _ => false

/-! `DocumentProcessor.process_file` (processors.py lines 388-438).  The text
extractor and the embedding model are external collaborators: the extractor's
output is a parameter, the encoder is an oracle `enc` whose `none` outcome is
a raised exception. -/

/-- `DocumentProcessor._create_embedding` (processors.py lines 466-478): blank
text and an encoder exception both give the 1024-dimensional zero vector. -/
def create_embedding (enc : Str → Option (List Rat)) (text : Str) : List Rat :=
  if pyStrip text = [] then List.replicate 1024 0
  else
    match enc text with
    | some v => v
    | none => List.replicate 1024 0

/-- The payload of chunk `i` of a file (processors.py lines 419-427);
`file_type` is the literal `"document"`. -/
def chunk_payload (fp fmt : Str) (fsize : Nat) (text : Str) (i total : Nat) : Payload :=
  ⟨fp, ['d','o','c','u','m','e','n','t'], fmt, text, i, total, fsize⟩

/-- The `for i, chunk in enumerate(chunks)` loop of `process_file` (lines
409-431): blank chunks are skipped; a flush failure raised inside
`_add_to_buffer` aborts the loop and becomes the `False` outcome of the
surrounding `try`. -/
def process_file_loop (ok : Nat → Bool) (enc : Str → Option (List Rat)) (batchSize : Nat)
    (fp fmt : Str) (fsize : Nat) (total : Nat) :
    List Str → Nat → BufState → Bool × BufState
  | [], _, s => (true, s)
  | c :: rest, i, s =>
    if pyStrip c = [] then
      process_file_loop ok enc batchSize fp fmt fsize total rest (i + 1) s
    else
      match (add_to_buffer ok batchSize
          ⟨create_embedding enc c, chunk_payload fp fmt fsize c i total⟩ s).1 with
      | Except.ok _ =>
        process_file_loop ok enc batchSize fp fmt fsize total rest (i + 1)
          (add_to_buffer ok batchSize
            ⟨create_embedding enc c, chunk_payload fp fmt fsize c i total⟩ s).2
      | Except.error _ =>
        (false, (add_to_buffer ok batchSize
          ⟨create_embedding enc c, chunk_payload fp fmt fsize c i total⟩ s).2)

/-- `DocumentProcessor.process_file` (lines 388-438) on a file whose extractor
returned `extracted`. -/
def process_file (ok : Nat → Bool) (enc : Str → Option (List Rat))
    (batchSize chunkSize : Nat) (fp fmt : Str) (fsize : Nat) (extracted : Str)
    (s : BufState) : Bool × BufState :=
  if pyStrip extracted = [] then (false, s)
  else
    if chunk_text chunkSize extracted = [] then (false, s)
    else
      process_file_loop ok enc batchSize fp fmt fsize
        (chunk_text chunkSize extracted).length (chunk_text chunkSize extracted) 0 s

/-- The points the loop constructs, in order, with their enumeration index. -/
def loop_points (enc : Str → Option (List Rat)) (fp fmt : Str) (fsize : Nat) (total : Nat) :
    List Str → Nat → List Point
  | [], _ => []
  | c :: rest, i =>
    if pyStrip c = [] then loop_points enc fp fmt fsize total rest (i + 1)
    else ⟨create_embedding enc c, chunk_payload fp fmt fsize c i total⟩
      :: loop_points enc fp fmt fsize total rest (i + 1)

/-- All points that have been created for the file: what `process_file` hands
to the buffer when it succeeds. -/
def file_points (enc : Str → Option (List Rat)) (chunkSize : Nat) (fp fmt : Str)
    (fsize : Nat) (extracted : Str) : List Point :=
  loop_points enc fp fmt fsize (chunk_text chunkSize extracted).length
    (chunk_text chunkSize extracted) 0

/-! `IndexingService` (services.py).  Timestamps are abstract naturals; the
thread pool's completion order is unspecified, and since the three counter
updates commute the workers are folded sequentially. -/

/-- `IndexingStats` (project_dataclasses.py lines 52-61), with `datetime`
values as abstract `Nat` timestamps. -/
structure IndexingStats where
  total_files_processed : Nat
  successful_files : Nat
  failed_files : Nat
  total_chunks_created : Nat
  processing_time : Nat
  start_time : Nat
  end_time : Option Nat
deriving DecidableEq

/-- One file found by `_find_document_files`: its path, suffix, size and the
text its extractor returns (blank = extraction failure). -/
structure FileInput where
  path : Str
  fmt : Str
  size : Nat
  text : Str
deriving DecidableEq

/-- `DocumentProcessor.process_file` declares two required positional
parameters `(suffix, file_path)` (processors.py line 388, matching the
abstract declaration at line 50). -/
def process_file_required_args : Nat := 2

/-- The call `self.document_processor.process_file(file_path)` in
`IndexingService._process_document_file` (services.py line 188) supplies one
positional argument. -/
def process_document_file_given_args : Nat := 1

/-- `IndexingService._process_document_file` (services.py lines 184-191).  The
inner call supplies fewer arguments than `process_file` requires, so Python
raises `TypeError` before the body of `process_file` runs; the surrounding
`except Exception` logs it and returns `False`.  The dead second branch records
what a call of the declared arity would have done. -/
def process_document_file (ok : Nat → Bool) (enc : Str → Option (List Rat))
    (batchSize chunkSize : Nat) (f : FileInput) (s : BufState) : Bool × BufState :=
  if process_document_file_given_args < process_file_required_args then
    (false, s)
  else
    process_file ok enc batchSize chunkSize f.path f.fmt f.size f.text s

/-- The worker-completion loop of `index_documents` (services.py lines
136-158): each file's outcome bumps `successful_files` or `failed_files`, and
`total_files_processed` always.  `_process_document_file` never raises, so the
inner `except` branch (lines 153-155) is dead. -/
def run_files (ok : Nat → Bool) (enc : Str → Option (List Rat)) (batchSize chunkSize : Nat) :
    List FileInput → IndexingStats → BufState → IndexingStats × BufState
  | [], st, s => (st, s)
  | f :: rest, st, s =>
    let r := process_document_file ok enc batchSize chunkSize f s
    let st1 : IndexingStats :=
      if r.1 then
        { st with successful_files := st.successful_files + 1,
                  total_files_processed := st.total_files_processed + 1 }
      else
        { st with failed_files := st.failed_files + 1,
                  total_files_processed := st.total_files_processed + 1 }
    run_files ok enc batchSize chunkSize rest st1 r.2

/-- `IndexingService._finalize_stats` (services.py lines 193-199). -/
def finalize_stats (st : IndexingStats) (now : Nat) : IndexingStats :=
  { st with end_time := some now, processing_time := now - st.start_time }

/-- The `try` block of `IndexingService.index_documents` (services.py lines
128-167).  An `error` outcome is an exception escaping the block — the only
raising operation is the Point Buffer flush inside `finalize` — carrying the
stats accumulated so far and the buffer state left by the flush. -/
def index_documents_body (ok : Nat → Bool) (enc : Str → Option (List Rat))
    (batchSize chunkSize : Nat) (files : List FileInput)
    (st0 : IndexingStats) (s0 : BufState) (now : Nat) :
    Except (IndexingStats × BufState) (IndexingStats × BufState) :=
  if files = [] then
    Except.ok (finalize_stats st0 now, s0)
  else
    match (finalize_buffer ok (run_files ok enc batchSize chunkSize files st0 s0).2).1 with
    | Except.ok _ =>
      Except.ok
        (finalize_stats (run_files ok enc batchSize chunkSize files st0 s0).1 now,
          (finalize_buffer ok (run_files ok enc batchSize chunkSize files st0 s0).2).2)
    | Except.error _ =>
      Except.error
        ((run_files ok enc batchSize chunkSize files st0 s0).1,
          (finalize_buffer ok (run_files ok enc batchSize chunkSize files st0 s0).2).2)

/-- `IndexingService.index_documents` (services.py lines 120-170): the whole
body sits in `try/except Exception`, whose handler logs and returns
`self._finalize_stats(start_time)`, so the caller always receives finalized
stats and never sees an exception. -/
def index_documents (ok : Nat → Bool) (enc : Str → Option (List Rat))
    (batchSize chunkSize : Nat) (files : List FileInput)
    (st0 : IndexingStats) (s0 : BufState) (now : Nat) : IndexingStats × BufState :=
  match index_documents_body ok enc batchSize chunkSize files st0 s0 now with
  | Except.ok r => r
  | Except.error (st, s) => (finalize_stats st now, s)

/-- Stats at the start of a run and a concrete file whose extraction
succeeds, for the concrete runs below. -/
def zeroStats : IndexingStats := ⟨0, 0, 0, 0, 0, 0, none⟩

def encOne : Str → Option (List Rat) := fun _ => some [1]

def sampleFile : FileInput := ⟨['f','.','t','x','t'], ['.','t','x','t'], 5, ['h','i',' ','y','o']⟩

/-! Query path: `QdrantManager.search_similar` (managers.py lines 68-164) and
`QueryService` (services.py lines 202-297).  The store's `search` and `scroll`
calls are oracles whose `error` outcome is a raised exception; the payload
fields read by the code are carried directly on the modelled points. -/

/-- One scored hit returned by the store's similarity search, with the
`chunk_index` payload entry the code reads. -/
structure Hit where
  score : Rat
  chunk_index : Int
deriving DecidableEq

/-- One point returned by the store's `scroll`, with the payload fields the
code reads. -/
structure StorePoint where
  id : Nat
  chunk_index : Int
  file_path : Str
  file_type : Str
  text : Str
deriving DecidableEq

/-- `SearchResult` (project_dataclasses.py lines 64-72). -/
structure SearchResult where
  ids : List Nat
  chunks : List Int
  file_paths : List Str
  file_types : List Str
  texts : List Str
  score : Rat
deriving DecidableEq

/-- Python `sorted` on integers: a stable ascending sort, extensionally equal
to insertion sort. -/
def pySorted (l : List Int) : List Int := l.insertionSort (· ≤ ·)

/-- The `SearchResult` built for one hit from the scrolled points
(managers.py lines 150-157).  Python's `set(...)` iterates in unspecified
order; `dedup` fixes one order of the distinct elements, and no claim depends
on it. -/
def build_search_result (score : Rat) (points : List StorePoint) : SearchResult :=
  ⟨points.map (fun p => p.id),
   pySorted (points.map (fun p => p.chunk_index)),
   (points.map (fun p => p.file_path)).dedup,
   (points.map (fun p => p.file_type)).dedup,
   points.map (fun p => p.text),
   score⟩

/-- The `for result in search_results` loop (managers.py lines 127-158): each
hit scoring at least the threshold triggers a range `scroll` around its chunk
index; a raised scroll aborts the loop. -/
def search_hits_loop (scroll : Int → Except Unit (List StorePoint)) (threshold : Rat) :
    List Hit → Except Unit (List SearchResult)
  | [] => Except.ok []
  | h :: rest =>
    if threshold ≤ h.score then
      match scroll h.chunk_index with
      | Except.error e => Except.error e
      | Except.ok points =>
        match search_hits_loop scroll threshold rest with
        | Except.error e => Except.error e
        | Except.ok rs => Except.ok (build_search_result h.score points :: rs)
    else search_hits_loop scroll threshold rest

/-- The `try` block of `search_similar` (managers.py lines 89-160): the
similarity search itself may raise, then the expansion loop runs. -/
def search_similar_body (searchRes : Except Unit (List Hit))
    (scroll : Int → Except Unit (List StorePoint)) (threshold : Rat) :
    Except Unit (List SearchResult) :=
  match searchRes with
  | Except.error e => Except.error e
  | Except.ok hits => search_hits_loop scroll threshold hits

/-- `QdrantManager.search_similar` (managers.py lines 68-164): any exception in
the body is caught, logged, and an empty list returned. -/
def search_similar (searchRes : Except Unit (List Hit))
    (scroll : Int → Except Unit (List StorePoint)) (threshold : Rat) : List SearchResult :=
  match search_similar_body searchRes scroll threshold with
  | Except.ok rs => rs
  | Except.error _ => []

/-- `QueryService._create_query_embedding` (services.py lines 254-266): a blank
query yields the 1024-dimensional zero vector; an encoder exception is caught
and also yields the zero vector. -/
def create_query_embedding (enc : Str → Option (List Rat)) (q : Str) : List Rat :=
  if pyStrip q = [] then List.replicate 1024 0
  else
    match enc q with
    | some v => v
    | none => List.replicate 1024 0

/-- `SearchResponse` (project_dataclasses.py lines 75-82), without the constant
`processing_time`. -/
structure SearchResponse where
  query : Str
  results : List SearchResult
  total_found : Nat
  query_embedding : List Rat
deriving DecidableEq

/-- `QueryService.search` (services.py lines 215-252). -/
def query_service_search (enc : Str → Option (List Rat))
    (searchRes : Except Unit (List Hit)) (scroll : Int → Except Unit (List StorePoint))
    (threshold : Rat) (q : Str) : SearchResponse :=
  ⟨q, search_similar searchRes scroll threshold,
    (search_similar searchRes scroll threshold).length,
    create_query_embedding enc q⟩

/-- A store whose similarity search raises, and one whose scroll raises. -/
def errSearch : Except Unit (List Hit) := Except.error ()

def errScroll : Int → Except Unit (List StorePoint) := fun _ => Except.error ()

/-- Two stored points from different files sharing `chunk_index = 50`, both
inside the scroll window `[40, 60]` of a hit at index 50 with shift 10. -/
def dupPoints : List StorePoint :=
  [⟨1, 50, ['a'], ['d','o','c','u','m','e','n','t'], ['t','1']⟩,
   ⟨2, 50, ['b'], ['d','o','c','u','m','e','n','t'], ['t','2']⟩]

lemma pySplitAux_clean :
    ∀ (s acc : Str), (∀ c ∈ acc, pySpace c = false) →
      ∀ w ∈ pySplitAux s acc, cleanWord w := by
  intro s
  induction s with
  | nil =>
    intro acc hacc w hw
    by_cases h : acc = []
    · simp [pySplitAux, h] at hw
    · simp [pySplitAux, h] at hw
      subst hw
      exact ⟨h, hacc⟩
  | cons c cs ih =>
    intro acc hacc w hw
    by_cases hc : pySpace c
    · by_cases h : acc = []
      · simp [pySplitAux, hc, h] at hw
        exact ih [] (by simp) w hw
      · simp [pySplitAux, hc, h] at hw
        rcases hw with hw | hw
        · subst hw; exact ⟨h, hacc⟩
        · exact ih [] (by simp) w hw
    · simp only [pySplitAux, hc] at hw
      simp only [Bool.false_eq_true, if_false] at hw
      refine ih (acc ++ [c]) ?_ w hw
      intro d hd
      rcases List.mem_append.1 hd with hd | hd
      · exact hacc d hd
      · simp at hd; subst hd
        exact Bool.eq_false_iff.2 hc

lemma pySplit_clean (s : Str) : ∀ w ∈ pySplit s, cleanWord w :=
  pySplitAux_clean s [] (by simp)

lemma pySplitAux_word (w : Str) (hw : ∀ c ∈ w, pySpace c = false) :
    ∀ (r acc : Str), pySplitAux (w ++ r) acc = pySplitAux r (acc ++ w) := by
  induction w with
  | nil => simp
  | cons c w ih =>
    intro r acc
    have hc : pySpace c = false := hw c (by simp)
    show pySplitAux (c :: (w ++ r)) acc = _
    simp only [pySplitAux, hc, Bool.false_eq_true, if_false]
    rw [ih (fun d hd => hw d (by simp [hd])) r (acc ++ [c])]
    simp

lemma pySplitAux_single (w : Str) (hw : cleanWord w) : pySplitAux w [] = [w] := by
  have h := pySplitAux_word w hw.2 [] []
  simp only [List.append_nil, List.nil_append] at h
  rw [h]
  simp [pySplitAux, hw.1]

lemma pySplit_joinSpace :
    ∀ ws : List Str, (∀ w ∈ ws, cleanWord w) → pySplit (joinSpace ws) = ws := by
  intro ws
  induction ws with
  | nil => intro _; rfl
  | cons w ws ih =>
    intro h
    have hw : cleanWord w := h w (by simp)
    cases ws with
    | nil =>
      show pySplitAux (joinSpace [w]) [] = [w]
      rw [show joinSpace [w] = w from rfl]
      exact pySplitAux_single w hw
    | cons x xs =>
      show pySplitAux (joinSpace (w :: x :: xs)) [] = w :: x :: xs
      rw [show joinSpace (w :: x :: xs) = w ++ ' ' :: joinSpace (x :: xs) from rfl]
      rw [pySplitAux_word w hw.2 (' ' :: joinSpace (x :: xs)) []]
      simp only [List.nil_append]
      have hsp : pySpace ' ' = true := by decide
      simp only [pySplitAux, hsp, if_pos, hw.1, if_neg]
      rw [show pySplitAux (joinSpace (x :: xs)) [] = pySplit (joinSpace (x :: xs)) from rfl]
      rw [ih (fun u hu => h u (by simp [hu]))]
      simp [hw.1]

lemma joinSpace_append :
    ∀ (xs ys : List Str), xs ≠ [] → ys ≠ [] →
      joinSpace (xs ++ ys) = joinSpace xs ++ ' ' :: joinSpace ys := by
  intro xs
  induction xs with
  | nil => intro ys h; exact absurd rfl h
  | cons x xs ih =>
    intro ys _ hys
    cases xs with
    | nil =>
      cases ys with
      | nil => exact absurd rfl hys
      | cons y ys => simp [joinSpace]
    | cons x' xs' =>
      have h1 : joinSpace ((x :: x' :: xs') ++ ys) = x ++ ' ' :: joinSpace ((x' :: xs') ++ ys) := by
        simp [joinSpace]
      rw [h1, ih ys (by simp) hys]
      simp [joinSpace]

lemma flatten_ne_nil_of_head {α : Type} (g : List α) (gs : List (List α)) (hg : g ≠ []) :
    (g :: gs).flatten ≠ [] := by
  simp only [List.flatten_cons]
  intro h
  exact hg (List.append_eq_nil.1 h).1

lemma joinSpace_flatten :
    ∀ gs : List (List Str), (∀ g ∈ gs, g ≠ []) →
      joinSpace (gs.map joinSpace) = joinSpace gs.flatten := by
  intro gs
  induction gs with
  | nil => intro _; rfl
  | cons g gs ih =>
    intro h
    cases gs with
    | nil => simp [joinSpace]
    | cons g' gs' =>
      have hmap : (g :: g' :: gs').map joinSpace
          = joinSpace g :: joinSpace g' :: gs'.map joinSpace := by simp
      rw [hmap]
      have h2 : joinSpace (joinSpace g :: joinSpace g' :: gs'.map joinSpace)
          = joinSpace g ++ ' ' :: joinSpace (joinSpace g' :: gs'.map joinSpace) := rfl
      rw [h2]
      have h3 : joinSpace g' :: gs'.map joinSpace = (g' :: gs').map joinSpace := by simp
      rw [h3, ih (fun u hu => h u (by simp [hu]))]
      have h4 : (g :: g' :: gs').flatten = g ++ (g' :: gs').flatten := by simp
      rw [h4, joinSpace_append g ((g' :: gs').flatten) (h g (by simp))
        (flatten_ne_nil_of_head g' gs' (h g' (by simp)))]

lemma joinSpace_snoc_length (cur : List Str) (w : Str) (h : cur ≠ []) :
    (joinSpace (cur ++ [w])).length = (joinSpace cur).length + 1 + w.length := by
  rw [joinSpace_append cur [w] h (by simp)]
  simp [joinSpace]
  omega

lemma chunk_fold_eq (n : Nat) :
    ∀ (ws : List Str) (groups : List (List Str)) (cur : List Str) (len : Nat),
      ws.foldl (chunkStep n) (groups.map joinSpace, cur, len)
        = ((ws.foldl (chunkWordsStep n) (groups, cur, len)).1.map joinSpace,
           (ws.foldl (chunkWordsStep n) (groups, cur, len)).2) := by
  intro ws
  induction ws with
  | nil => intro groups cur len; rfl
  | cons w ws ih =>
    intro groups cur len
    simp only [List.foldl_cons]
    by_cases h : len + w.length + 1 > n ∧ cur ≠ []
    · rw [show chunkStep n (groups.map joinSpace, cur, len) w
          = (groups.map joinSpace ++ [joinSpace cur], [w], w.length) from by
        simp [chunkStep, h]]
      rw [show chunkWordsStep n (groups, cur, len) w = (groups ++ [cur], [w], w.length) from by
        simp [chunkWordsStep, h]]
      have h2 := ih (groups ++ [cur]) [w] w.length
      simpa [List.map_append] using h2
    · rw [show chunkStep n (groups.map joinSpace, cur, len) w
          = (groups.map joinSpace, cur ++ [w], len + w.length + 1) from by
        simp [chunkStep, h]]
      rw [show chunkWordsStep n (groups, cur, len) w
          = (groups, cur ++ [w], len + w.length + 1) from by
        simp [chunkWordsStep, h]]
      exact ih groups (cur ++ [w]) (len + w.length + 1)

lemma chunk_text_eq (n : Nat) (t : Str) :
    chunk_text n t = (chunkWords n (pySplit t)).map joinSpace := by
  unfold chunk_text chunkWords
  have h := chunk_fold_eq n (pySplit t) [] [] 0
  simp only [List.map_nil] at h
  rw [h]
  by_cases hc : ((pySplit t).foldl (chunkWordsStep n) ([], [], 0)).2.1 = []
  · simp [hc]
  · simp [hc, List.map_append]

lemma chunkWords_inv (n : Nat) :
    ∀ (ws : List Str) (groups : List (List Str)) (cur : List Str) (len : Nat),
      (∀ g ∈ groups, goodGroup n g) → goodCur n cur len →
      (∀ g ∈ (ws.foldl (chunkWordsStep n) (groups, cur, len)).1, goodGroup n g) ∧
      goodCur n (ws.foldl (chunkWordsStep n) (groups, cur, len)).2.1
        (ws.foldl (chunkWordsStep n) (groups, cur, len)).2.2 ∧
      (ws.foldl (chunkWordsStep n) (groups, cur, len)).1.flatten ++
          (ws.foldl (chunkWordsStep n) (groups, cur, len)).2.1
        = groups.flatten ++ (cur ++ ws) := by
  intro ws
  induction ws with
  | nil =>
    intro groups cur len hg hc
    exact ⟨hg, hc, by simp⟩
  | cons w ws ih =>
    intro groups cur len hg hc
    simp only [List.foldl_cons]
    by_cases h : len + w.length + 1 > n ∧ cur ≠ []
    · rw [show chunkWordsStep n (groups, cur, len) w = (groups ++ [cur], [w], w.length) from by
        simp [chunkWordsStep, h]]
      have hcur : goodGroup n cur := by
        rcases hc with ⟨hnil, _⟩ | ⟨hne, _, hb⟩
        · exact absurd hnil h.2
        · exact ⟨hne, hb⟩
      have hg2 : ∀ g ∈ groups ++ [cur], goodGroup n g := by
        intro g hgm
        rcases List.mem_append.1 hgm with hgm | hgm
        · exact hg g hgm
        · simp at hgm; subst hgm; exact hcur
      have hc2 : goodCur n [w] w.length :=
        Or.inr ⟨by simp, by simp [joinSpace], Or.inr ⟨w, rfl⟩⟩
      obtain ⟨a, b, c⟩ := ih (groups ++ [cur]) [w] w.length hg2 hc2
      refine ⟨a, b, ?_⟩
      rw [c]
      simp
    · rw [show chunkWordsStep n (groups, cur, len) w
          = (groups, cur ++ [w], len + w.length + 1) from by
        simp [chunkWordsStep, h]]
      have hc2 : goodCur n (cur ++ [w]) (len + w.length + 1) := by
        rcases hc with ⟨hnil, hlen⟩ | ⟨hne, hdom, _⟩
        · subst hnil; subst hlen
          exact Or.inr ⟨by simp, by simp [joinSpace], Or.inr ⟨w, rfl⟩⟩
        · have hle : len + w.length + 1 ≤ n := by
            rcases not_and_or.1 h with h1 | h1
            · omega
            · exact absurd hne (not_not.1 (by simpa using h1))
          have hjl := joinSpace_snoc_length cur w hne
          refine Or.inr ⟨by simp, by omega, Or.inl (by omega)⟩
      obtain ⟨a, b, c⟩ := ih groups (cur ++ [w]) (len + w.length + 1) hg hc2
      refine ⟨a, b, ?_⟩
      rw [c]
      simp

lemma chunkWords_spec (n : Nat) (ws : List Str) :
    (chunkWords n ws).flatten = ws ∧ ∀ g ∈ chunkWords n ws, goodGroup n g := by
  obtain ⟨hg, hc, hflat⟩ := chunkWords_inv n ws [] [] 0 (by simp) (Or.inl ⟨rfl, rfl⟩)
  unfold chunkWords
  by_cases h : (ws.foldl (chunkWordsStep n) ([], [], 0)).2.1 = []
  · simp only [h, ne_eq, not_true_eq_false, ite_false]
    constructor
    · rw [h] at hflat; simpa using hflat
    · exact hg
  · simp only [h, ne_eq, not_false_eq_true, ite_true]
    constructor
    · simpa using hflat
    · intro g hgm
      rcases List.mem_append.1 hgm with hgm | hgm
      · exact hg g hgm
      · simp at hgm; subst hgm
        rcases hc with ⟨hnil, _⟩ | ⟨hne, _, hb⟩
        · exact absurd hnil h
        · exact ⟨hne, hb⟩

lemma chunkWords_word_clean (n : Nat) (t : Str) :
    ∀ g ∈ chunkWords n (pySplit t), ∀ w ∈ g, cleanWord w := by
  intro g hg w hw
  obtain ⟨hflat, _⟩ := chunkWords_spec n (pySplit t)
  exact pySplit_clean t w (by rw [← hflat]; exact List.mem_flatten.2 ⟨g, hg, hw⟩)

/-- C1: for every text and every `max_len`, joining the chunks produced by
`DocumentProcessor._chunk_text` with single spaces and splitting on whitespace
yields exactly the word sequence of the original text; moreover every word
appears, in order, in exactly one chunk (the concatenation of the chunks' word
lists is the text's word list). -/
theorem chunk_text_roundtrip (maxLen : Nat) (text : Str) :
    ((chunk_text maxLen text).map pySplit).flatten = pySplit text ∧
    pySplit (joinSpace (chunk_text maxLen text)) = pySplit text := by
  obtain ⟨hflat, hgood⟩ := chunkWords_spec maxLen (pySplit text)
  have hclean := chunkWords_word_clean maxLen text
  rw [chunk_text_eq]
  constructor
  · rw [List.map_map]
    have hpt : (chunkWords maxLen (pySplit text)).map (pySplit ∘ joinSpace)
        = chunkWords maxLen (pySplit text) := by
      rw [show chunkWords maxLen (pySplit text)
          = (chunkWords maxLen (pySplit text)).map id from by simp]
      rw [List.map_map]
      refine List.map_congr_left ?_
      intro g hg
      simp only [Function.comp_apply, id_eq]
      exact pySplit_joinSpace g (hclean g (by simpa using hg))
    rw [hpt]
    exact hflat
  · rw [joinSpace_flatten _ (fun g hg => (hgood g hg).1), hflat]
    exact pySplit_joinSpace _ (pySplit_clean text)

/-- C2: every chunk produced by `_chunk_text` has length at most `max_len`,
except that a chunk may be longer only when it is exactly one word of the text
that itself exceeds `max_len` (words are never split). -/
theorem chunk_text_length_bound (maxLen : Nat) (text : Str) (c : Str)
    (hc : c ∈ chunk_text maxLen text) :
    c.length ≤ maxLen ∨ (maxLen < c.length ∧ c ∈ pySplit text ∧ pySplit c = [c]) := by
  rw [chunk_text_eq] at hc
  obtain ⟨g, hg, rfl⟩ := List.mem_map.1 hc
  obtain ⟨hflat, hgood⟩ := chunkWords_spec maxLen (pySplit text)
  obtain ⟨hne, hbound⟩ := hgood g hg
  rcases hbound with hb | ⟨w, rfl⟩
  · exact Or.inl hb
  · by_cases hw : (joinSpace [w]).length ≤ maxLen
    · exact Or.inl hw
    · right
      have hwmem : w ∈ pySplit text := by
        rw [← hflat]
        exact List.mem_flatten.2 ⟨[w], hg, by simp⟩
      have hclean := pySplit_clean text w hwmem
      have hjw : joinSpace [w] = w := rfl
      rw [hjw] at hw ⊢
      exact ⟨Nat.lt_of_not_le hw, hwmem, pySplitAux_single w hclean⟩

/-- Witness for C2 at `max_len = 5`, `text = "abc defghij"`: the second chunk
is the single word `defghij`, longer than `max_len`. -/
theorem chunk_text_length_bound_witness :
    (['d','e','f','g','h','i','j'] ∈ chunk_text 5 ['a','b','c',' ','d','e','f','g','h','i','j']) ∧
    ((['d','e','f','g','h','i','j'] : Str).length ≤ 5 ∨
      (5 < (['d','e','f','g','h','i','j'] : Str).length ∧
        ['d','e','f','g','h','i','j'] ∈ pySplit ['a','b','c',' ','d','e','f','g','h','i','j'] ∧
        pySplit ['d','e','f','g','h','i','j'] = [['d','e','f','g','h','i','j']])) :=
  ⟨by decide, chunk_text_length_bound 5 ['a','b','c',' ','d','e','f','g','h','i','j']
    ['d','e','f','g','h','i','j'] (by decide)⟩

/-- C5: `_flush_batch` sends the entire current buffer as one upsert call and
leaves the buffer empty in both outcomes; on success the written count grows by
the batch length; on store failure the exception propagates to the caller while
the buffer is still cleared (nothing is re-queued). -/
theorem flush_batch_spec (ok : Nat → Bool) (s : BufState) :
    (flush_batch ok s).2.buffer = [] ∧
    (flush_batch ok s).2.upserts = s.upserts ++ [s.buffer] ∧
    (flush_batch ok s).2.processed_count
      = s.processed_count + (if ok s.upserts.length then s.buffer.length else 0) ∧
    (flush_batch ok s).1 = (if ok s.upserts.length then Except.ok () else Except.error ()) := by
  unfold flush_batch
  by_cases h : ok s.upserts.length <;> simp [h]

lemma add_many_fill (ok : Nat → Bool) (batchSize : Nat) :
    ∀ (ps : List Point) (s : BufState), ps ≠ [] →
      s.buffer.length + ps.length = batchSize →
      (add_many ok batchSize ps s).buffer = [] ∧
      (add_many ok batchSize ps s).upserts = s.upserts ++ [s.buffer ++ ps] := by
  intro ps
  induction ps with
  | nil => intro s h; exact absurd rfl h
  | cons p ps ih =>
    intro s _ hlen
    have ha : (s.buffer ++ [p]).length = s.buffer.length + 1 := by simp
    cases ps with
    | nil =>
      have hge : batchSize ≤ (s.buffer ++ [p]).length := by
        rw [ha]
        simp at hlen
        omega
      have hstep : (add_to_buffer ok batchSize p s).2
          = (flush_batch ok ⟨s.buffer ++ [p], s.processed_count, s.upserts⟩).2 := by
        unfold add_to_buffer
        rw [if_pos hge]
      simp only [add_many, List.foldl_cons, List.foldl_nil, hstep]
      unfold flush_batch
      by_cases h : ok s.upserts.length <;> simp [h]
    | cons q qs =>
      have hlen2 : s.buffer.length + qs.length + 2 = batchSize := by
        simp at hlen
        omega
      have hlt : ¬ batchSize ≤ (s.buffer ++ [p]).length := by
        rw [ha]
        omega
      have hstep : (add_to_buffer ok batchSize p s).2
          = ⟨s.buffer ++ [p], s.processed_count, s.upserts⟩ := by
        unfold add_to_buffer
        rw [if_neg hlt]
      have h2 := ih ⟨s.buffer ++ [p], s.processed_count, s.upserts⟩ (by simp)
        (by simp; omega)
      simp only [add_many, List.foldl_cons] at h2 ⊢
      rw [hstep]
      refine ⟨h2.1, ?_⟩
      rw [h2.2]
      simp

/-- C6: starting from an empty buffer with batch size `B ≥ 1`, after `add` is
called `B` times exactly one flush has occurred and the buffer is empty; and
`finalize` leaves the buffer empty whatever its prior state. -/
theorem buffer_batch_invariant (ok : Nat → Bool) (batchSize : Nat) (ps : List Point)
    (s0 s : BufState) (hB : 1 ≤ batchSize) (hlen : ps.length = batchSize)
    (hbuf : s0.buffer = []) :
    (add_many ok batchSize ps s0).buffer = [] ∧
    (add_many ok batchSize ps s0).upserts.length = s0.upserts.length + 1 ∧
    ((finalize_buffer ok s).2).buffer = [] := by
  have hne : ps ≠ [] := by
    intro h
    rw [h] at hlen
    simp at hlen
    omega
  obtain ⟨h1, h2⟩ := add_many_fill ok batchSize ps s0 hne (by rw [hbuf]; simpa using hlen)
  refine ⟨h1, by rw [h2]; simp, ?_⟩
  unfold finalize_buffer
  by_cases h : s.buffer = []
  · rw [if_pos h]
    exact h
  · rw [if_neg h]
    exact (flush_batch_spec ok s).1

/-- Witness for C6: batch size 2, two adds from the empty buffer. -/
theorem buffer_batch_invariant_witness :
    (1 ≤ 2 ∧ ([samplePoint, samplePoint] : List Point).length = 2 ∧ emptyBuf.buffer = []) ∧
    ((add_many okAll 2 [samplePoint, samplePoint] emptyBuf).buffer = [] ∧
      (add_many okAll 2 [samplePoint, samplePoint] emptyBuf).upserts.length
        = emptyBuf.upserts.length + 1 ∧
      ((finalize_buffer okAll bufOne).2).buffer = []) :=
  ⟨⟨by decide, by decide, rfl⟩,
    buffer_batch_invariant okAll 2 [samplePoint, samplePoint] emptyBuf bufOne
      (by decide) (by decide) rfl⟩

lemma pyStrip_eq_nil_of_all_space (s : Str) (h : ∀ c ∈ s, pySpace c = true) :
    pyStrip s = [] := by
  unfold pyStrip
  have h1 : s.dropWhile pySpace = [] := List.dropWhile_eq_nil_iff.2 h
  rw [h1]
  rfl

lemma all_space_of_pyStrip_eq_nil (s : Str) (h : pyStrip s = []) :
    ∀ c ∈ s, pySpace c = true := by
  unfold pyStrip at h
  have h1 : (s.dropWhile pySpace).reverse.dropWhile pySpace = [] := by
    have := congrArg List.reverse h
    simpa using this
  have h2 : ∀ c ∈ (s.dropWhile pySpace).reverse, pySpace c = true :=
    List.dropWhile_eq_nil_iff.1 h1
  have h3 : ∀ c ∈ s.dropWhile pySpace, pySpace c = true := by
    intro c hc
    exact h2 c (List.mem_reverse.2 hc)
  intro c hc
  rw [← List.takeWhile_append_dropWhile pySpace s] at hc
  rcases List.mem_append.1 hc with hc | hc
  · exact List.mem_takeWhile_imp hc
  · exact h3 c hc

lemma pySplit_of_all_space :
    ∀ s : Str, (∀ c ∈ s, pySpace c = true) → pySplit s = [] := by
  intro s
  induction s with
  | nil => intro _; rfl
  | cons c cs ih =>
    intro h
    have hc : pySpace c = true := h c (by simp)
    show pySplitAux (c :: cs) [] = []
    simp only [pySplitAux, hc, ite_true, if_pos]
    exact ih (fun d hd => h d (by simp [hd]))

/-- Every chunk `_chunk_text` produces is non-blank: it does not satisfy the
`if not chunk.strip()` skip test of `process_file` (line 412). -/
lemma chunk_text_nonblank (n : Nat) (t : Str) :
    ∀ c ∈ chunk_text n t, pyStrip c ≠ [] := by
  intro c hc hstrip
  rw [chunk_text_eq] at hc
  obtain ⟨g, hg, rfl⟩ := List.mem_map.1 hc
  obtain ⟨hflat, hgood⟩ := chunkWords_spec n (pySplit t)
  have hne := (hgood g hg).1
  have hclean := chunkWords_word_clean n t g hg
  have hsplit : pySplit (joinSpace g) = g := pySplit_joinSpace g hclean
  have hempty : pySplit (joinSpace g) = [] :=
    pySplit_of_all_space _ (all_space_of_pyStrip_eq_nil _ hstrip)
  exact hne (hsplit ▸ hempty)

lemma add_to_buffer_flow (ok : Nat → Bool) (batchSize : Nat) (p : Point) (s : BufState) :
    ((add_to_buffer ok batchSize p s).2).upserts.flatten ++
        ((add_to_buffer ok batchSize p s).2).buffer
      = s.upserts.flatten ++ s.buffer ++ [p] := by
  unfold add_to_buffer flush_batch
  by_cases h : batchSize ≤ (s.buffer ++ [p]).length
  · have h2 : batchSize ≤ s.buffer.length + 1 := by simpa using h
    by_cases hok : ok s.upserts.length <;> simp [h2, hok]
  · have h2 : ¬ batchSize ≤ s.buffer.length + 1 := by simpa using h
    simp [h2]

lemma process_file_loop_flow (ok : Nat → Bool) (enc : Str → Option (List Rat))
    (batchSize : Nat) (fp fmt : Str) (fsize : Nat) (total : Nat) :
    ∀ (chunks : List Str) (i : Nat) (s : BufState),
      (process_file_loop ok enc batchSize fp fmt fsize total chunks i s).1 = true →
      ((process_file_loop ok enc batchSize fp fmt fsize total chunks i s).2).upserts.flatten ++
          ((process_file_loop ok enc batchSize fp fmt fsize total chunks i s).2).buffer
        = s.upserts.flatten ++ s.buffer ++ loop_points enc fp fmt fsize total chunks i := by
  intro chunks
  induction chunks with
  | nil =>
    intro i s _
    simp [process_file_loop, loop_points]
  | cons c rest ih =>
    intro i s h
    by_cases hb : pyStrip c = []
    · simp only [process_file_loop, loop_points, hb, ite_true, if_pos] at h ⊢
      exact ih (i + 1) s h
    · simp only [process_file_loop, loop_points, hb, ite_false, if_neg, not_false_eq_true] at h ⊢
      cases hr : (add_to_buffer ok batchSize
          ⟨create_embedding enc c, chunk_payload fp fmt fsize c i total⟩ s).1 with
      | error e =>
        simp only [hr] at h
        exact absurd h (by simp)
      | ok u =>
        simp only [hr] at h ⊢
        rw [ih (i + 1) _ h]
        rw [add_to_buffer_flow ok batchSize
          ⟨create_embedding enc c, chunk_payload fp fmt fsize c i total⟩ s]
        simp

lemma loop_points_indices (enc : Str → Option (List Rat)) (fp fmt : Str)
    (fsize : Nat) (total : Nat) :
    ∀ (chunks : List Str) (i : Nat), (∀ c ∈ chunks, pyStrip c ≠ []) →
      (loop_points enc fp fmt fsize total chunks i).map (fun p => p.payload.chunk_index)
        = List.range' i chunks.length ∧
      ∀ p ∈ loop_points enc fp fmt fsize total chunks i, p.payload.total_chunks = total := by
  intro chunks
  induction chunks with
  | nil =>
    intro i _
    constructor
    · rfl
    · intro p hp
      simp [loop_points] at hp
  | cons c rest ih =>
    intro i h
    have hb : ¬ pyStrip c = [] := h c (by simp)
    obtain ⟨h1, h2⟩ := ih (i + 1) (fun d hd => h d (by simp [hd]))
    constructor
    · simp only [loop_points, hb, ite_false, if_neg, not_false_eq_true, List.map_cons, h1]
      rw [List.length_cons, List.range'_succ]
      rfl
    · intro p hp
      simp only [loop_points, hb, ite_false, if_neg, not_false_eq_true, List.mem_cons] at hp
      rcases hp with hp | hp
      · rw [hp]
        rfl
      · exact h2 p hp

/-- C10: every chunk the chunker returns is non-blank, so the blank-chunk skip
branch of `process_file` never fires; when `process_file` succeeds, the created
points all enter the buffer, carry contiguous `chunk_index` values
`0 .. total_chunks - 1`, and `total_chunks` equals the number of chunks. -/
theorem process_file_contiguous_points (ok : Nat → Bool) (enc : Str → Option (List Rat))
    (batchSize chunkSize : Nat) (fp fmt : Str) (fsize : Nat) (extracted : Str) (s0 : BufState)
    (h : (process_file ok enc batchSize chunkSize fp fmt fsize extracted s0).1 = true) :
    (∀ c ∈ chunk_text chunkSize extracted, pyStrip c ≠ []) ∧
    ((process_file ok enc batchSize chunkSize fp fmt fsize extracted s0).2).upserts.flatten ++
        ((process_file ok enc batchSize chunkSize fp fmt fsize extracted s0).2).buffer
      = s0.upserts.flatten ++ s0.buffer ++ file_points enc chunkSize fp fmt fsize extracted ∧
    (file_points enc chunkSize fp fmt fsize extracted).map (fun p => p.payload.chunk_index)
      = List.range (chunk_text chunkSize extracted).length ∧
    ∀ p ∈ file_points enc chunkSize fp fmt fsize extracted,
      p.payload.total_chunks = (chunk_text chunkSize extracted).length := by
  have hnb := chunk_text_nonblank chunkSize extracted
  unfold process_file at h ⊢
  by_cases h1 : pyStrip extracted = []
  · rw [if_pos h1] at h
    simp at h
  · rw [if_neg h1] at h ⊢
    by_cases h2 : chunk_text chunkSize extracted = []
    · rw [if_pos h2] at h
      simp at h
    · rw [if_neg h2] at h ⊢
      obtain ⟨hidx, htot⟩ := loop_points_indices enc fp fmt fsize
        (chunk_text chunkSize extracted).length (chunk_text chunkSize extracted) 0 hnb
      refine ⟨hnb, ?_, ?_, htot⟩
      · exact process_file_loop_flow ok enc batchSize fp fmt fsize
          (chunk_text chunkSize extracted).length (chunk_text chunkSize extracted) 0 s0 h
      · rw [show file_points enc chunkSize fp fmt fsize extracted
            = loop_points enc fp fmt fsize (chunk_text chunkSize extracted).length
                (chunk_text chunkSize extracted) 0 from rfl]
        rw [hidx, List.range_eq_range']

/-- Witness for C10: a two-word text split into two chunks with chunk sizes
that force one word per chunk. -/
theorem process_file_contiguous_points_witness :
    ((process_file okAll (fun _ => some [1]) 100 2 ['f'] ['t'] 5 ['a','b',' ','c','d'] emptyBuf).1
        = true) ∧
    ((process_file okAll (fun _ => some [1]) 100 2 ['f'] ['t'] 5 ['a','b',' ','c','d'] emptyBuf).2).upserts.flatten ++
        ((process_file okAll (fun _ => some [1]) 100 2 ['f'] ['t'] 5 ['a','b',' ','c','d'] emptyBuf).2).buffer
      = emptyBuf.upserts.flatten ++ emptyBuf.buffer ++
          file_points (fun _ => some [1]) 2 ['f'] ['t'] 5 ['a','b',' ','c','d'] ∧
    (file_points (fun _ => some [1]) 2 ['f'] ['t'] 5 ['a','b',' ','c','d']).map
        (fun p => p.payload.chunk_index)
      = List.range (chunk_text 2 ['a','b',' ','c','d']).length :=
  ⟨by decide,
    (process_file_contiguous_points okAll (fun _ => some [1]) 100 2 ['f'] ['t'] 5
      ['a','b',' ','c','d'] emptyBuf (by decide)).2.1,
    (process_file_contiguous_points okAll (fun _ => some [1]) 100 2 ['f'] ['t'] 5
      ['a','b',' ','c','d'] emptyBuf (by decide)).2.2.1⟩

/-- C3: failing input for the claim.  A directory run over `N = 1` supported
file whose extraction succeeds (`K = 0`): the claim requires
`successful_files = 1` and `failed_files = 0`, but `_process_document_file`
passes one argument to the two-parameter `process_file`, so the call raises
`TypeError`, is counted as a failure, and the run reports
`successful_files = 0`, `failed_files = 1`, `total_files_processed = 1`. -/
theorem index_documents_miscounts :
    pyStrip sampleFile.text ≠ [] ∧
    (index_documents okAll encOne 10 10 [sampleFile] zeroStats emptyBuf 7).1.successful_files = 0 ∧
    (index_documents okAll encOne 10 10 [sampleFile] zeroStats emptyBuf 7).1.failed_files = 1 ∧
    (index_documents okAll encOne 10 10 [sampleFile] zeroStats emptyBuf 7).1.total_files_processed
      = 1 :=
  ⟨by decide, rfl, rfl, rfl⟩

/-- C4 counterexample: a run in which the final flush raises (pre-existing
buffered point, store refusing the write).  The `try` block ends in an
exception, yet `index_documents` returns the normal finalized-stats value: the
error does not propagate to the caller, contrary to the claim. -/
theorem index_documents_no_propagation :
    index_documents_body okNone encOne 10 10 [sampleFile] zeroStats bufOne 7
      = Except.error (⟨1, 0, 1, 0, 0, 0, none⟩, ⟨[], 0, [[samplePoint]]⟩) ∧
    index_documents okNone encOne 10 10 [sampleFile] zeroStats bufOne 7
      = (finalize_stats ⟨1, 0, 1, 0, 0, 0, none⟩ 7, ⟨[], 0, [[samplePoint]]⟩) :=
  ⟨rfl, rfl⟩

/-- C4 (amended): when the `try` block of `index_documents` raises — the only
raising operation being the Point Buffer flush — the `except` handler returns
the finalized stats carrying the counts accumulated so far, together with the
buffer state the flush left (buffer cleared); the error never propagates to
the caller.  Per-file failures never abort the run
(`_process_document_file` is total). -/
theorem index_documents_catches_flush_error (ok : Nat → Bool) (enc : Str → Option (List Rat))
    (batchSize chunkSize : Nat) (files : List FileInput) (st0 : IndexingStats)
    (s0 : BufState) (now : Nat) (st : IndexingStats) (s : BufState)
    (h : index_documents_body ok enc batchSize chunkSize files st0 s0 now
        = Except.error (st, s)) :
    index_documents ok enc batchSize chunkSize files st0 s0 now
      = (finalize_stats st now, s) := by
  unfold index_documents
  rw [h]

/-- Witness for the amended C4 at the concrete failing-flush run. -/
theorem index_documents_catches_flush_error_witness :
    (index_documents_body okNone encOne 10 10 [sampleFile] zeroStats bufOne 7
      = Except.error (⟨1, 0, 1, 0, 0, 0, none⟩, ⟨[], 0, [[samplePoint]]⟩)) ∧
    index_documents okNone encOne 10 10 [sampleFile] zeroStats bufOne 7
      = (finalize_stats ⟨1, 0, 1, 0, 0, 0, none⟩ 7, ⟨[], 0, [[samplePoint]]⟩) :=
  ⟨rfl,
    index_documents_catches_flush_error okNone encOne 10 10 [sampleFile] zeroStats bufOne 7
      ⟨1, 0, 1, 0, 0, 0, none⟩ ⟨[], 0, [[samplePoint]]⟩ rfl⟩

/-- C7: whenever any stage of the similarity search raises, `search_similar`
returns the empty result list and `QueryService.search` a response with no
results — the exception is never propagated to the caller. -/
theorem search_fail_closed (enc : Str → Option (List Rat))
    (searchRes : Except Unit (List Hit)) (scroll : Int → Except Unit (List StorePoint))
    (threshold : Rat) (q : Str) (e : Unit)
    (h : search_similar_body searchRes scroll threshold = Except.error e) :
    search_similar searchRes scroll threshold = [] ∧
    (query_service_search enc searchRes scroll threshold q).results = [] ∧
    (query_service_search enc searchRes scroll threshold q).total_found = 0 := by
  have h1 : search_similar searchRes scroll threshold = [] := by
    unfold search_similar
    rw [h]
  exact ⟨h1, by unfold query_service_search; rw [h1], by unfold query_service_search; rw [h1]; rfl⟩

/-- Witness for C7: the similarity-search call raises. -/
theorem search_fail_closed_witness :
    (search_similar_body errSearch errScroll 0 = Except.error ()) ∧
    (search_similar errSearch errScroll 0 = [] ∧
      (query_service_search encOne errSearch errScroll 0 []).results = [] ∧
      (query_service_search encOne errSearch errScroll 0 []).total_found = 0) :=
  ⟨rfl, search_fail_closed encOne errSearch errScroll 0 [] () rfl⟩

/-- C8 counterexample: the chunk-index list of the constructed `SearchResult`
for `dupPoints` is `[50, 50]` — sorted and within the window, but with a
duplicate, so the claim's no-duplicates part is false (`sorted` does not
deduplicate). -/
theorem search_result_chunks_duplicate :
    dupPoints.length ≤ 100 ∧
    (build_search_result 1 dupPoints).chunks = [50, 50] ∧
    ¬ (build_search_result 1 dupPoints).chunks.Nodup := by
  refine ⟨by decide, by decide, by decide⟩

/-- C8 (amended): for a hit at chunk index `c` with shift `S`, when the store
honours the scroll contract — at most 100 points, each with `chunk_index` in
`[c - S, c + S]` — the chunk-index list of the constructed `SearchResult` is
sorted ascending, has length at most 100, and lies in the inclusive window;
duplicate indices are possible when distinct points share a chunk index. -/
theorem search_result_chunks_window (score : Rat) (c S : Int) (pts : List StorePoint)
    (hlen : pts.length ≤ 100)
    (hrange : ∀ p ∈ pts, c - S ≤ p.chunk_index ∧ p.chunk_index ≤ c + S) :
    (build_search_result score pts).chunks.Sorted (· ≤ ·) ∧
    (build_search_result score pts).chunks.length ≤ 100 ∧
    ∀ x ∈ (build_search_result score pts).chunks, c - S ≤ x ∧ x ≤ c + S := by
  have hch : (build_search_result score pts).chunks
      = (pts.map (fun p => p.chunk_index)).insertionSort (· ≤ ·) := rfl
  have hperm := List.perm_insertionSort (α := Int) (· ≤ ·) (pts.map (fun p => p.chunk_index))
  refine ⟨?_, ?_, ?_⟩
  · rw [hch]
    exact List.sorted_insertionSort (· ≤ ·) (pts.map (fun p => p.chunk_index))
  · rw [hch, hperm.length_eq, List.length_map]
    exact hlen
  · intro x hx
    rw [hch] at hx
    have hx2 : x ∈ pts.map (fun p => p.chunk_index) := hperm.mem_iff.1 hx
    obtain ⟨p, hp, hpx⟩ := List.mem_map.1 hx2
    rw [← hpx]
    exact hrange p hp

/-- Witness for the amended C8 at the concrete duplicated-index scroll
result. -/
theorem search_result_chunks_window_witness :
    (dupPoints.length ≤ 100) ∧
    (build_search_result 1 dupPoints).chunks.Sorted (· ≤ ·) ∧
    (build_search_result 1 dupPoints).chunks.length ≤ 100 :=
  ⟨by decide,
    (search_result_chunks_window 1 50 10 dupPoints (by decide) (by decide)).1,
    (search_result_chunks_window 1 50 10 dupPoints (by decide) (by decide)).2.1⟩

/-- C9: a query that is empty or whitespace-only is embedded as the zero vector
of the deployment dimensionality 1024 by `_create_query_embedding`, whatever
the encoder would do. -/
theorem blank_query_zero_vector (enc : Str → Option (List Rat)) (q : Str)
    (hq : ∀ c ∈ q, pySpace c = true) :
    create_query_embedding enc q = List.replicate 1024 0 ∧
    (create_query_embedding enc q).length = 1024 := by
  have hstrip : pyStrip q = [] := pyStrip_eq_nil_of_all_space q hq
  unfold create_query_embedding
  rw [if_pos hstrip]
  exact ⟨rfl, by rw [List.length_replicate]⟩

/-- Witness for C9 on the whitespace-only query `"  "`. -/
theorem blank_query_zero_vector_witness :
    create_query_embedding encOne [' ', ' '] = List.replicate 1024 0 ∧
    (create_query_embedding encOne [' ', ' ']).length = 1024 :=
  blank_query_zero_vector encOne [' ', ' '] (by decide)

end LIAR
